import Mathlib

/-!
Shallow embedding of the DendriticMLP model-construction module
(nupic.research frameworks/dendrites/modules/dendritic_mlp.py) and of the
functional apply-dendrites primitives exercised by its unit test.

Tensors are embedded as nested lists of rationals.  The random draws the
source consumes (torch.randperm, nn.init.uniform_) are passed in explicitly,
so every statement is universally quantified over the randomness.
-/

deriving instance DecidableEq for Except

namespace DendriticNet

/-- A 2-D tensor (matrix) of rationals, as a list of rows. -/
abbrev Mat : Type := List (List ℚ)

/-- A 3-D tensor, indexed as (num_units, num_segments, dim_context). -/
abbrev T3 : Type := List (List (List ℚ))

/-- The random draws consumed by hardcode_dendritic_weights.
For init non_overlapping, perms i embeds the torch.randperm(num_contexts)
drawn for unit i.  For init overlapping, selections c embeds the
torch.randperm(num_units) drawn for context c, and k embeds the value
int(0.05 * num_units) computed before the loop over contexts. -/
structure Rand where
  k : Nat
  selections : Nat → List Nat
  perms : Nat → List Nat

/-- Elementwise 1.0 * (v > 0): one where the entry is positive, zero elsewhere. -/
def indicatorPos (v : List ℚ) : List ℚ :=
  v.map (fun x => if 0 < x then 1 else 0)

/-- The init == non_overlapping branch of _hardcode_dendritic_weights: unit i
takes the first row of a random permutation of context_vectors; its segment 0
becomes the positive-entry indicator of that row, and every later segment is
that indicator shifted by -1 (the source first writes -1 everywhere in
segments 1.. and then adds segment 0 back in). -/
def nonOverlappingWeights (numUnits numSegments : Nat) (context_vectors : Mat)
    (perms : Nat → List Nat) : T3 :=
  (List.range numUnits).map (fun i =>
    let context_perm : Mat := (perms i).map (fun j => context_vectors.getD j [])
    let seg0 : List ℚ := indicatorPos (context_perm.headD [])
    (List.range numSegments).map (fun j =>
      if j = 0 then seg0 else seg0.map (fun x => -1 + x)))

/-- The constant row used by the init == overlapping branch:
-0.95 * torch.ones(dim_context). -/
def constRow (dim_context : Nat) : List ℚ :=
  List.replicate dim_context (-(95 : ℚ) / 100)

/-- Initial value of new_dendritic_weights in the overlapping branch. -/
def overlapInit (numUnits numSegments dimContext : Nat) : T3 :=
  List.replicate numUnits (List.replicate numSegments (constRow dimContext))

/-- Write the row at position (i, j) of a 3-D tensor. -/
def set3 (w : T3) (i j : Nat) (row : List ℚ) : T3 :=
  w.set i ((w.getD i []).set j row)

/-- Body of the inner loop of the overlapping branch, for one selected unit i:
the state is (new_dendritic_weights, num_contexts_chosen).  If unit i already
has num_segments hardcoded segments it is skipped; otherwise the current
context row is written into its next free segment. -/
def overlapUnitStep (numSegments : Nat) (crow : List ℚ)
    (st : T3 × (Nat → Nat)) (i : Nat) : T3 × (Nat → Nat) :=
  let segment_id := st.2 i
  if segment_id = numSegments then st
  else
    (set3 st.1 i segment_id crow,
     fun u => if u = i then st.2 u + 1 else st.2 u)

/-- Processing of one context c in the overlapping branch: the selected units
are torch.randperm(num_units)[:k], embedded as (selections c).take k. -/
def overlapContextStep (numSegments k : Nat) (selections : Nat → List Nat)
    (context_vectors : Mat) (st : T3 × (Nat → Nat)) (c : Nat) : T3 × (Nat → Nat) :=
  ((selections c).take k).foldl
    (overlapUnitStep numSegments (context_vectors.getD c [])) st

/-- Final state (new_dendritic_weights, num_contexts_chosen) of the
init == overlapping branch after the loop over all contexts. -/
def overlappingState (numUnits numSegments dimContext : Nat) (context_vectors : Mat)
    (r : Rand) : T3 × (Nat → Nat) :=
  (List.range context_vectors.length).foldl
    (overlapContextStep numSegments r.k r.selections context_vectors)
    (overlapInit numUnits numSegments dimContext, fun _ => 0)

/-- The body of _hardcode_dendritic_weights after the shape bookkeeping: build
new_dendritic_weights from the chosen init, or raise on an invalid choice. -/
def hardcodeNew (numUnits numSegments dimContext : Nat) (context_vectors : Mat)
    (init : String) (r : Rand) : Except String T3 :=
  if init = "overlapping" then
    .ok (overlappingState numUnits numSegments dimContext context_vectors r).1
  else if init = "non_overlapping" then
    .ok (nonOverlappingWeights numUnits numSegments context_vectors r.perms)
  else
    .error "Invalid dendritic weight hardcode choice"

/-- Dendrite weights as received by _hardcode_dendritic_weights: either a 3-D
tensor, or a 2-D tensor from a one-segment dendritic layer. -/
inductive DWeights where
  | t2 (m : Mat)
  | t3 (w : T3)
deriving DecidableEq

/-- The static method DendriticMLP._hardcode_dendritic_weights.  A 2-D weight
tensor is unsqueezed to a single-segment 3-D tensor before the computation and
the result is squeezed back into 2-D form afterwards (original_weights.data is
reassigned).  The old weight values are never read: only the shape matters. -/
def DendriticMLP.hardcode_dendritic_weights_one (w : DWeights) (context_vectors : Mat)
    (init : String) (r : Rand) : Except String DWeights :=
  match w with
  | .t3 w3 =>
    match hardcodeNew w3.length (w3.headD []).length ((w3.headD []).headD []).length
        context_vectors init r with
    | .ok nw => .ok (.t3 nw)
    | .error e => .error e
  | .t2 m =>
    match hardcodeNew m.length 1 (m.headD []).length context_vectors init r with
    | .ok nw => .ok (.t2 (nw.map (fun u => u.headD [])))
    | .error e => .error e

/-- Loop of a per-layer fallible mutation over the hidden layers, in order.
An exception at some layer leaves that layer and all later ones unchanged,
while mutations of earlier layers stay committed. -/
def hardcodeLayersGo (f : DWeights → Except String DWeights) :
    List DWeights → List DWeights × Option String
  | [] => ([], none)
  | w :: ws =>
    match f w with
    | .error e => (w :: ws, some e)
    | .ok w2 =>
      let rest := hardcodeLayersGo f ws
      (w2 :: rest.1, rest.2)

/-- The instance method DendriticMLP.hardcode_dendritic_weights: when
self.num_segments > 0, hardcode every hidden layer in order; otherwise do
nothing.  The second component is the exception raised, if any. -/
def DendriticMLP.hardcode_dendritic_weights (num_segments : Int) (layers : List DWeights)
    (context_vectors : Mat) (init : String) (r : Rand) :
    List DWeights × Option String :=
  if 0 < num_segments then
    hardcodeLayersGo
      (fun w => DendriticMLP.hardcode_dendritic_weights_one w context_vectors init r)
      layers
  else
    (layers, none)

/-- A SparseWeights-wrapped linear module, as seen by _init_sparse_weights:
its sparsity level, the weight matrix of the wrapped nn.Linear, and the mask
of the weight positions that rezero_weights zeroes out. -/
structure SparseLayer where
  sparsity : ℚ
  weight : Mat
  zeroMask : Nat → Nat → Bool

/-- Modelled from the spec: rezero_weights is an external nupic.torch
collaborator (not under src/) that zeroes every masked (sparse) weight
position and leaves every other position unchanged. -/
def rezero_weights (mask : Nat → Nat → Bool) (w : Mat) : Mat :=
  (List.range w.length).map (fun i =>
    (List.range (w.getD i []).length).map (fun j =>
      if mask i j then 0 else (w.getD i []).getD j 0))

/-- Modelled from the spec: nn.init.uniform_ is an external torch collaborator
(not under src/) that fills the tensor in place with independent uniform
samples; the draw is embedded as an explicit sampler function, and the
uniform-range constraint becomes a hypothesis on the sampler. -/
def uniform_fill (sample : Nat → Nat → ℚ) (w : Mat) : Mat :=
  (List.range w.length).map (fun i =>
    (List.range (w.getD i []).length).map (fun j => sample i j))

/-- The fan_in read by _init_sparse_weights: the second dimension of the
weight matrix, _, fan_in = m.module.weight.size(). -/
def fanIn (w : Mat) : Nat := (w.headD []).length

/-- DendriticMLP._init_sparse_weights: uniform re-initialization of the
wrapped module weight followed by rezero_weights. -/
def DendriticMLP.init_sparse_weights (m : SparseLayer) (sample : Nat → Nat → ℚ) :
    SparseLayer :=
  { m with weight := rezero_weights m.zeroMask (uniform_fill sample m.weight) }

/-- The dendritic segments sub-module of a dendritic layer, when present. -/
structure Segments where
  sparsity : ℚ

/-- A dendritic layer as seen by _init_sparse_dendrites. -/
structure DendLayer where
  dim_context : Nat
  segments : Option Segments
  segment_weights : Mat
  segZeroMask : Nat → Nat → Bool

/-- DendriticMLP._init_sparse_dendrites: when segments are present, uniform
re-initialization of segment_weights followed by rezero_weights; when
m.segments is None the layer is left unchanged. -/
def DendriticMLP.init_sparse_dendrites (m : DendLayer) (sample : Nat → Nat → ℚ) :
    DendLayer :=
  match m.segments with
  | none => m
  | some _ =>
    { m with segment_weights := rezero_weights m.segZeroMask (uniform_fill sample m.segment_weights) }

/-- Result of DendriticMLP.forward: one output head or a list of heads. -/
inductive FwdOut (O : Type) where
  | single (o : O)
  | multi (os : List O)

/-- The pieces of a constructed DendriticMLP that forward reads: the hidden
dendritic layers (functions of the running value and the context), their
paired activations, the output layers and the head mode. -/
structure ForwardNet (V C O : Type) where
  num_segments : Int
  layers : List (V → Option C → V)
  activations : List (V → V)
  output_layers : List (V → O)
  single_output_head : Bool

/-- The head dispatch at the end of forward: the single-head branch indexes
self._output_layers[0] (an IndexError if there are none), the multi-head
branch maps over all output layers. -/
def applyOutputHeads {V C O : Type} (net : ForwardNet V C O) (y : V) :
    Except String (FwdOut O) :=
  if net.single_output_head then
    match net.output_layers with
    | [] => .error "IndexError"
    | f :: _ => .ok (.single (f y))
  else
    .ok (.multi (net.output_layers.map (fun f => f y)))

/-- DendriticMLP.forward: assert (context is not None) or (num_segments == 0),
then fold the value through zip(self._layers, self._activations) passing the
same context to every layer, then apply the output head(s). -/
def DendriticMLP.forward {V C O : Type} (net : ForwardNet V C O) (x : V)
    (context : Option C) : Except String (FwdOut O) :=
  if context.isNone ∧ net.num_segments ≠ 0 then
    .error "AssertionError"
  else
    applyOutputHeads net
      ((net.layers.zip net.activations).foldl (fun acc la => la.2 (la.1 acc context)) x)

/-- Threading a value through (layer, activation) pairs one at a time in
order, passing the same context to every layer: the recursive description of
the loop body of forward. -/
def threadLayers {V C : Type} (context : Option C) :
    List ((V → Option C → V) × (V → V)) → V → V
  | [], x => x
  | la :: rest, x => threadLayers context rest (la.2 (la.1 x context))

/-- Named parameters of one module: (name, requires_grad), with the name as a
character list. -/
abbrev Params := List (List Char × Bool)

/-- The freeze_dendrites loop of the constructor on one hidden layer: every
parameter whose name contains "segments" gets requires_grad = False, every
other parameter keeps its flag. -/
def freezeSegments (ps : Params) : Params :=
  ps.map (fun p => if "segments".toList <:+: p.1 then (p.1, false) else p)

/-- The freeze_dendrites branch of the constructor over all hidden layers. -/
def applyFreezeDendrites (freeze_dendrites : Bool) (layerParams : List Params) :
    List Params :=
  if freeze_dendrites then layerParams.map freezeSegments else layerParams

/-- The constructor steps that decide self.hardcode_dendrites: the assertion
dendrite_init in ("kaiming", "modified") followed by
hardcode_dendrites = (dendrite_init == "hardcoded"). -/
def ctorHardcodeDendrites (dendrite_init : String) : Except String Bool :=
  if dendrite_init = "kaiming" ∨ dendrite_init = "modified" then
    .ok (dendrite_init == "hardcoded")
  else
    .error "AssertionError"

/-- The dendrite_sparsity value passed to every hidden dendritic layer:
0.0 when hardcode_dendrites, else the dendrite_weight_sparsity argument. -/
def ctorDendriteSparsity (hardcode_dendrites : Bool) (dendrite_weight_sparsity : ℚ) : ℚ :=
  if hardcode_dendrites then 0 else dendrite_weight_sparsity

/-- The kw flag after the constructor's adjustment
if kw_percent_on == 0.0: kw = False (kw_percent_on may be None). -/
def effectiveKw (kw : Bool) (kw_percent_on : Option ℚ) : Bool :=
  if kw_percent_on = some 0 then false else kw

/-- The activation module built for a hidden layer: nn.ReLU, or KWinners with
its unit count and percent_on argument. -/
inductive HiddenActivation where
  | relu
  | kwinners (n : Nat) (percent_on : Option ℚ)
deriving DecidableEq

/-- The per-hidden-layer activations built by the constructor loop: KWinners
with n = hidden_sizes[i] and percent_on = kw_percent_on when self.kw, else
nn.ReLU. -/
def hiddenActivations (kw : Bool) (kw_percent_on : Option ℚ) (hidden_sizes : List Nat) :
    List HiddenActivation :=
  hidden_sizes.map (fun n =>
    if effectiveKw kw kw_percent_on then .kwinners n kw_percent_on else .relu)

/-- A 4-D tensor of shape (batch, channels, h, w). -/
abbrev T4 : Type := List (List Mat)

/-- Modelled from the spec: the apply-dendrites functional primitives and
their module wrappers live outside src/ (only their unit test is present).
Per the spec they combine a linear layer output with per-unit dendritic
activations via biasing or gating: a unit selects the strongest of its
segment activations (largest value, or largest absolute value for the
absolute-max variants) and either adds it to the output or multiplies the
output by its sigmoid.  The sigmoid is kept abstract as a parameter. -/
def maxSeg (a : List ℚ) : ℚ := a.foldl max (a.headD 0)

/-- The segment activation with the largest absolute value. -/
def absMaxSeg (a : List ℚ) : ℚ :=
  a.foldl (fun acc x => if |acc| < |x| then x else acc) (a.headD 0)

/-- Modelled from the spec: functional primitive dendritic_bias on a
(batch, units) output and (batch, units, segments) activations. -/
def dendritic_bias (y : Mat) (acts : T3) : Mat :=
  (List.range y.length).map (fun b =>
    (List.range (y.getD b []).length).map (fun u =>
      (y.getD b []).getD u 0 + maxSeg ((acts.getD b []).getD u [])))

/-- Modelled from the spec: functional primitive dendritic_gate. -/
def dendritic_gate (sig : ℚ → ℚ) (y : Mat) (acts : T3) : Mat :=
  (List.range y.length).map (fun b =>
    (List.range (y.getD b []).length).map (fun u =>
      (y.getD b []).getD u 0 * sig (maxSeg ((acts.getD b []).getD u []))))

/-- Modelled from the spec: functional primitive dendritic_absolute_max_gate. -/
def dendritic_absolute_max_gate (sig : ℚ → ℚ) (y : Mat) (acts : T3) : Mat :=
  (List.range y.length).map (fun b =>
    (List.range (y.getD b []).length).map (fun u =>
      (y.getD b []).getD u 0 * sig (absMaxSeg ((acts.getD b []).getD u []))))

/-- Modelled from the spec: functional primitive dendritic_gate_2d on a
(batch, channels, h, w) output and (batch, channels, segments) activations;
the channel gate is broadcast over the spatial positions. -/
def dendritic_gate_2d (sig : ℚ → ℚ) (y : T4) (acts : T3) : T4 :=
  (List.range y.length).map (fun b =>
    (List.range (y.getD b []).length).map (fun c =>
      ((y.getD b []).getD c []).map (fun row =>
        row.map (fun x => x * sig (maxSeg ((acts.getD b []).getD c []))))))

/-- Modelled from the spec: functional primitive dendritic_absolute_max_gate_2d. -/
def dendritic_absolute_max_gate_2d (sig : ℚ → ℚ) (y : T4) (acts : T3) : T4 :=
  (List.range y.length).map (fun b =>
    (List.range (y.getD b []).length).map (fun c =>
      ((y.getD b []).getD c []).map (fun row =>
        row.map (fun x => x * sig (absMaxSeg ((acts.getD b []).getD c []))))))

/-- Modelled from the spec: the stateless module DendriticBias. -/
structure DendriticBias where

/-- Modelled from the spec: the stateless module DendriticGate. -/
structure DendriticGate where

/-- Modelled from the spec: the stateless module DendriticAbsoluteMaxGate. -/
structure DendriticAbsoluteMaxGate where

/-- Modelled from the spec: the stateless module DendriticGate2d. -/
structure DendriticGate2d where

/-- Modelled from the spec: the stateless module DendriticAbsoluteMaxGate2d. -/
structure DendriticAbsoluteMaxGate2d where

/-- Modelled from the spec: the forward of DendriticBias calls the functional
primitive. -/
def DendriticBias.forward (_ : DendriticBias) (y : Mat) (acts : T3) : Mat :=
  dendritic_bias y acts

/-- Modelled from the spec: the forward of DendriticGate calls the functional
primitive. -/
def DendriticGate.forward (_ : DendriticGate) (sig : ℚ → ℚ) (y : Mat) (acts : T3) : Mat :=
  dendritic_gate sig y acts

/-- Modelled from the spec: the forward of DendriticAbsoluteMaxGate calls the
functional primitive. -/
def DendriticAbsoluteMaxGate.forward (_ : DendriticAbsoluteMaxGate) (sig : ℚ → ℚ)
    (y : Mat) (acts : T3) : Mat :=
  dendritic_absolute_max_gate sig y acts

/-- Modelled from the spec: the forward of DendriticGate2d calls the
functional primitive. -/
def DendriticGate2d.forward (_ : DendriticGate2d) (sig : ℚ → ℚ) (y : T4) (acts : T3) : T4 :=
  dendritic_gate_2d sig y acts

/-- Modelled from the spec: the forward of DendriticAbsoluteMaxGate2d calls
the functional primitive. -/
def DendriticAbsoluteMaxGate2d.forward (_ : DendriticAbsoluteMaxGate2d) (sig : ℚ → ℚ)
    (y : T4) (acts : T3) : T4 :=
  dendritic_absolute_max_gate_2d sig y acts

/-- Invariant of the overlapping-branch loop state
(new_dendritic_weights, num_contexts_chosen): the weights keep their outer
length; for every unit, the chosen count never exceeds num_segments, the
segments below the count hold rows of context_vectors, and the segments at or
above the count still hold the constant -0.95 row. -/
def OverlapInv (numUnits numSegments dimContext : Nat) (cv : Mat)
    (w : T3) (cnt : Nat → Nat) : Prop :=
  w.length = numUnits ∧
  ∀ i, i < numUnits →
    cnt i ≤ numSegments ∧
    (w.getD i []).length = numSegments ∧
    ∀ j, j < numSegments →
      (j < cnt i → (w.getD i []).getD j [] ∈ cv) ∧
      (cnt i ≤ j → (w.getD i []).getD j [] = constRow dimContext)

/-- The argument of np.sqrt in the modified Kaiming bound of
_init_sparse_weights and _init_sparse_dendrites:
input_density * weight_density * fan_in. -/
def boundDenom (input_sparsity sparsity : ℚ) (fan : Nat) : ℚ :=
  (1 - input_sparsity) * (1 - sparsity) * (fan : ℚ)

end DendriticNet

namespace DendriticNet

theorem getD_range_map {α : Type} (f : Nat → α) (n i : Nat) (d : α) (h : i < n) :
    ((List.range n).map f).getD i d = f i := by
  rw [List.getD_eq_getElem?_getD, List.getElem?_map, List.getElem?_range h]
  rfl

theorem getD_map_lt {α β : Type} (f : α → β) (l : List α) (i : Nat) (d : β) (d2 : α)
    (h : i < l.length) :
    (l.map f).getD i d = f (l.getD i d2) := by
  rw [List.getD_eq_getElem _ _ (by simpa using h), List.getElem_map,
    List.getD_eq_getElem _ _ h]

theorem getD_replicate_lt {α : Type} (a d : α) {n i : Nat} (h : i < n) :
    (List.replicate n a).getD i d = a := by
  rw [List.getD_eq_getElem _ _ (by simpa using h)]
  exact List.getElem_replicate a _

theorem getD_set_self {α : Type} {l : List α} {i : Nat} (a d : α) (h : i < l.length) :
    (l.set i a).getD i d = a := by
  rw [List.getD_eq_getElem?_getD, List.getElem?_set_self h]
  rfl

theorem getD_set_ne {α : Type} {l : List α} {i j : Nat} (a d : α) (h : i ≠ j) :
    (l.set i a).getD j d = l.getD j d := by
  rw [List.getD_eq_getElem?_getD, List.getElem?_set_ne h, ← List.getD_eq_getElem?_getD]

theorem headD_eq_getD_zero {α : Type} (l : List α) (d : α) : l.headD d = l.getD 0 d := by
  cases l <;> rfl

theorem getD_mem {α : Type} (l : List α) (i : Nat) (d : α) (h : i < l.length) :
    l.getD i d ∈ l := by
  rw [List.getD_eq_getElem _ _ h]
  exact List.getElem_mem h

theorem nonOverlappingWeights_getD (numUnits numSegments : Nat) (cv : Mat)
    (perms : Nat → List Nat) (i : Nat) (h : i < numUnits) :
    (nonOverlappingWeights numUnits numSegments cv perms).getD i []
      = (List.range numSegments).map (fun j =>
          if j = 0 then indicatorPos (((perms i).map (fun j2 => cv.getD j2 [])).headD [])
          else (indicatorPos (((perms i).map (fun j2 => cv.getD j2 [])).headD [])).map
            (fun x => -1 + x)) := by
  unfold nonOverlappingWeights
  rw [getD_range_map _ _ _ _ h]

theorem length_nonOverlappingWeights (numUnits numSegments : Nat) (cv : Mat)
    (perms : Nat → List Nat) :
    (nonOverlappingWeights numUnits numSegments cv perms).length = numUnits := by
  unfold nonOverlappingWeights
  rw [List.length_map, List.length_range]

theorem hardcode_one_t3_non_overlapping (w3 : T3) (cv : Mat) (r : Rand) :
    DendriticMLP.hardcode_dendritic_weights_one (.t3 w3) cv "non_overlapping" r
      = .ok (.t3 (nonOverlappingWeights w3.length (w3.headD []).length cv r.perms)) := by
  show (match hardcodeNew w3.length (w3.headD []).length ((w3.headD []).headD []).length
      cv "non_overlapping" r with
    | .ok nw => Except.ok (DWeights.t3 nw)
    | .error e => Except.error e) = _
  unfold hardcodeNew
  rw [if_neg (by decide), if_pos rfl]

/-- C1: after _hardcode_dendritic_weights with init == non_overlapping, every
unit i owns a row v of context_vectors: its segment 0 is the elementwise
indicator of v > 0, and each entry of every later segment is the segment-0
entry minus one. -/
theorem C1_non_overlapping_hardcode
    (w3 : T3) (cv : Mat) (r : Rand) (numSegments dimContext : Nat)
    (hS : ∀ u ∈ w3, u.length = numSegments)
    (hS1 : 1 ≤ numSegments)
    (hcv : cv ≠ [])
    (hcvlen : ∀ v ∈ cv, v.length = dimContext)
    (hperm : ∀ i, (r.perms i).Perm (List.range cv.length)) :
    ∃ w2 : T3,
      DendriticMLP.hardcode_dendritic_weights_one (.t3 w3) cv "non_overlapping" r
        = .ok (.t3 w2) ∧
      w2.length = w3.length ∧
      ∀ i, i < w3.length → ∃ v ∈ cv,
        (∀ d, d < dimContext →
          ((w2.getD i []).getD 0 []).getD d 0 = if 0 < v.getD d 0 then 1 else 0) ∧
        (∀ j, 1 ≤ j → j < numSegments → ∀ d, d < dimContext →
          ((w2.getD i []).getD j []).getD d 0
            = ((w2.getD i []).getD 0 []).getD d 0 - 1) := by
  refine ⟨nonOverlappingWeights w3.length (w3.headD []).length cv r.perms,
    hardcode_one_t3_non_overlapping w3 cv r,
    length_nonOverlappingWeights _ _ _ _, ?_⟩
  intro i hi
  have hw3ne : w3 ≠ [] := by
    intro h
    rw [h] at hi
    exact Nat.not_lt_zero i hi
  have hhead : w3.headD [] ∈ w3 := by
    cases w3 with
    | nil => exact absurd rfl hw3ne
    | cons u tl => exact List.mem_cons_self u tl
  have hnseg : (w3.headD []).length = numSegments := hS _ hhead
  have hcvpos : 0 < cv.length := List.length_pos.mpr hcv
  have hpne : r.perms i ≠ [] := by
    intro h
    have := (hperm i).length_eq
    rw [h, List.length_nil, List.length_range] at this
    omega
  obtain ⟨h0, t0, hpe⟩ := List.exists_cons_of_ne_nil hpne
  have hh0 : h0 < cv.length := by
    have : h0 ∈ r.perms i := by
      rw [hpe]
      exact List.mem_cons_self h0 t0
    have := (hperm i).mem_iff.mp this
    exact List.mem_range.mp this
  refine ⟨cv.getD h0 [], getD_mem cv h0 [] hh0, ?_, ?_⟩
  · intro d hd
    rw [nonOverlappingWeights_getD _ _ _ _ _ hi, hpe]
    rw [getD_range_map _ _ _ _ (by rw [hnseg]; omega : 0 < (w3.headD []).length)]
    rw [if_pos rfl]
    show (indicatorPos ((cv.getD h0 [] :: t0.map fun j2 => cv.getD j2 []).headD [])).getD d 0 = _
    show (indicatorPos (cv.getD h0 [])).getD d 0 = _
    unfold indicatorPos
    rw [getD_map_lt _ _ _ _ 0 (by rw [hcvlen _ (getD_mem cv h0 [] hh0)]; exact hd)]
  · intro j hj1 hj2 d hd
    have hlen : (cv.getD h0 []).length = dimContext := hcvlen _ (getD_mem cv h0 [] hh0)
    rw [nonOverlappingWeights_getD _ _ _ _ _ hi, hpe]
    rw [getD_range_map _ _ _ _ (by rw [hnseg]; omega : 0 < (w3.headD []).length),
      getD_range_map _ _ _ _ (by rw [hnseg]; omega : j < (w3.headD []).length)]
    rw [if_pos rfl, if_neg (by omega)]
    show ((indicatorPos (cv.getD h0 [])).map fun x => -1 + x).getD d 0
      = (indicatorPos (cv.getD h0 [])).getD d 0 - 1
    have hd2 : d < (indicatorPos (cv.getD h0 [])).length := by
      unfold indicatorPos
      rw [List.length_map, hlen]
      exact hd
    rw [getD_map_lt _ _ _ _ 0 hd2]
    ring

/-- Witness for C1 at a concrete input: one unit, two segments, one context
vector [1, -2]. -/
theorem C1_non_overlapping_hardcode_witness :
    ∃ w2 : T3,
      DendriticMLP.hardcode_dendritic_weights_one (.t3 [[[0, 0], [0, 0]]]) [[1, -2]]
        "non_overlapping" ⟨0, fun _ => [], fun _ => [0]⟩
        = .ok (.t3 w2) ∧
      w2.length = ([[[0, 0], [0, 0]]] : T3).length ∧
      ∀ i, i < ([[[0, 0], [0, 0]]] : T3).length → ∃ v ∈ ([[1, -2]] : Mat),
        (∀ d, d < 2 →
          ((w2.getD i []).getD 0 []).getD d 0 = if 0 < v.getD d 0 then 1 else 0) ∧
        (∀ j, 1 ≤ j → j < 2 → ∀ d, d < 2 →
          ((w2.getD i []).getD j []).getD d 0
            = ((w2.getD i []).getD 0 []).getD d 0 - 1) :=
  C1_non_overlapping_hardcode [[[0, 0], [0, 0]]] [[1, -2]] ⟨0, fun _ => [], fun _ => [0]⟩
    2 2 (by decide) (by decide) (by decide) (by decide) (fun _ => (List.Perm.refl [0] : ([0] : List Nat).Perm (List.range 1)))

theorem overlapInv_init (numUnits numSegments dimContext : Nat) (cv : Mat) :
    OverlapInv numUnits numSegments dimContext cv
      (overlapInit numUnits numSegments dimContext) (fun _ => 0) := by
  unfold OverlapInv overlapInit
  refine ⟨List.length_replicate _ _, ?_⟩
  intro i hi
  rw [getD_replicate_lt _ _ hi]
  refine ⟨Nat.zero_le _, List.length_replicate _ _, ?_⟩
  intro j hj
  exact ⟨fun h => absurd h (Nat.not_lt_zero j),
    fun _ => getD_replicate_lt _ _ hj⟩

theorem overlapInv_unitStep {numUnits numSegments dimContext : Nat} {cv : Mat}
    {crow : List ℚ} (hcrow : crow ∈ cv) {st : T3 × (Nat → Nat)}
    (hst : OverlapInv numUnits numSegments dimContext cv st.1 st.2) (i : Nat) :
    OverlapInv numUnits numSegments dimContext cv
      (overlapUnitStep numSegments crow st i).1
      (overlapUnitStep numSegments crow st i).2 := by
  obtain ⟨hlen, hinv⟩ := hst
  simp only [overlapUnitStep]
  split
  · exact ⟨hlen, hinv⟩
  case isFalse hfull =>
  refine ⟨?_, ?_⟩
  · show (set3 st.1 i (st.2 i) crow).length = numUnits
    unfold set3
    rw [List.length_set]
    exact hlen
  intro u hu
  obtain ⟨hcnt, hrowlen, hrows⟩ := hinv u hu
  by_cases hui : u = i
  · subst hui
    have hiu : u < st.1.length := by rw [hlen]; exact hu
    have hrow : (set3 st.1 u (st.2 u) crow).getD u []
        = (st.1.getD u []).set (st.2 u) crow := by
      unfold set3
      exact getD_set_self _ _ hiu
    have hcnt2 : st.2 u < numSegments := lt_of_le_of_ne hcnt hfull
    refine ⟨?_, ?_, ?_⟩
    · show (if u = u then st.2 u + 1 else st.2 u) ≤ numSegments
      rw [if_pos rfl]
      omega
    · show ((set3 st.1 u (st.2 u) crow).getD u []).length = numSegments
      rw [hrow, List.length_set]
      exact hrowlen
    · intro j hj
      constructor
      · intro hjlt
        show ((set3 st.1 u (st.2 u) crow).getD u []).getD j [] ∈ cv
        rw [hrow]
        have hjlt2 : j < st.2 u + 1 := by simpa using hjlt
        by_cases hje : j = st.2 u
        · subst hje
          rw [getD_set_self _ _ (by rw [hrowlen]; exact hcnt2)]
          exact hcrow
        · rw [getD_set_ne _ _ (fun e => hje e.symm)]
          exact (hrows j hj).1 (by omega)
      · intro hge
        show ((set3 st.1 u (st.2 u) crow).getD u []).getD j [] = constRow dimContext
        rw [hrow]
        have hge2 : st.2 u + 1 ≤ j := by simpa using hge
        rw [getD_set_ne _ _ (by omega)]
        exact (hrows j hj).2 (by omega)
  · have hrow : (set3 st.1 i (st.2 i) crow).getD u [] = st.1.getD u [] := by
      unfold set3
      exact getD_set_ne _ _ (fun e => hui e.symm)
    refine ⟨?_, ?_, ?_⟩
    · show (if u = i then st.2 u + 1 else st.2 u) ≤ numSegments
      rw [if_neg hui]
      exact hcnt
    · show ((set3 st.1 i (st.2 i) crow).getD u []).length = numSegments
      rw [hrow]
      exact hrowlen
    · intro j hj
      constructor
      · intro hjlt
        show ((set3 st.1 i (st.2 i) crow).getD u []).getD j [] ∈ cv
        rw [hrow]
        have hjlt2 : j < st.2 u := by simpa [hui] using hjlt
        exact (hrows j hj).1 hjlt2
      · intro hge
        show ((set3 st.1 i (st.2 i) crow).getD u []).getD j [] = constRow dimContext
        rw [hrow]
        have hge2 : st.2 u ≤ j := by simpa [hui] using hge
        exact (hrows j hj).2 hge2

theorem overlapInv_foldl_units {numUnits numSegments dimContext : Nat} {cv : Mat}
    {crow : List ℚ} (hcrow : crow ∈ cv) :
    ∀ (l : List Nat) (st : T3 × (Nat → Nat)),
      OverlapInv numUnits numSegments dimContext cv st.1 st.2 →
      OverlapInv numUnits numSegments dimContext cv
        (l.foldl (overlapUnitStep numSegments crow) st).1
        (l.foldl (overlapUnitStep numSegments crow) st).2
  | [], _, h => h
  | a :: t, st, h => by
    rw [List.foldl_cons]
    exact overlapInv_foldl_units hcrow t _ (overlapInv_unitStep hcrow h a)

theorem overlapInv_contextStep {numUnits numSegments dimContext k : Nat} {cv : Mat}
    {selections : Nat → List Nat} {st : T3 × (Nat → Nat)} {c : Nat}
    (hc : c < cv.length)
    (h : OverlapInv numUnits numSegments dimContext cv st.1 st.2) :
    OverlapInv numUnits numSegments dimContext cv
      (overlapContextStep numSegments k selections cv st c).1
      (overlapContextStep numSegments k selections cv st c).2 := by
  unfold overlapContextStep
  exact overlapInv_foldl_units (getD_mem cv c [] hc) _ st h

theorem overlapInv_foldl_contexts {numUnits numSegments dimContext k : Nat} {cv : Mat}
    {selections : Nat → List Nat} :
    ∀ (l : List Nat), (∀ c ∈ l, c < cv.length) →
      ∀ st : T3 × (Nat → Nat),
      OverlapInv numUnits numSegments dimContext cv st.1 st.2 →
      OverlapInv numUnits numSegments dimContext cv
        (l.foldl (overlapContextStep numSegments k selections cv) st).1
        (l.foldl (overlapContextStep numSegments k selections cv) st).2
  | [], _, _, h => h
  | a :: t, hmem, st, h => by
    rw [List.foldl_cons]
    exact overlapInv_foldl_contexts t (fun c hcm => hmem c (List.mem_cons_of_mem a hcm)) _
      (overlapInv_contextStep (hmem a (List.mem_cons_self a t)) h)

theorem overlapInv_overlappingState (numUnits numSegments dimContext : Nat)
    (cv : Mat) (r : Rand) :
    OverlapInv numUnits numSegments dimContext cv
      (overlappingState numUnits numSegments dimContext cv r).1
      (overlappingState numUnits numSegments dimContext cv r).2 := by
  unfold overlappingState
  exact overlapInv_foldl_contexts _ (fun c hc => List.mem_range.mp hc) _
    (overlapInv_init numUnits numSegments dimContext cv)

theorem overlapUnitStep_getD_ne {numSegments : Nat} {crow : List ℚ}
    {st : T3 × (Nat → Nat)} {i u : Nat} (h : u ≠ i) :
    ((overlapUnitStep numSegments crow st i).1.getD u []) = st.1.getD u [] := by
  simp only [overlapUnitStep]
  split
  · rfl
  · show (set3 st.1 i (st.2 i) crow).getD u [] = st.1.getD u []
    unfold set3
    exact getD_set_ne _ _ (fun e => h e.symm)

theorem foldl_unitStep_getD_ne {numSegments : Nat} {crow : List ℚ} {u : Nat} :
    ∀ (l : List Nat), u ∉ l → ∀ st : T3 × (Nat → Nat),
      ((l.foldl (overlapUnitStep numSegments crow) st).1.getD u []) = st.1.getD u []
  | [], _, _ => rfl
  | a :: t, hu, st => by
    rw [List.foldl_cons]
    rw [foldl_unitStep_getD_ne t (fun hm => hu (List.mem_cons_of_mem a hm)) _]
    exact overlapUnitStep_getD_ne (fun e => hu (by rw [e]; exact List.mem_cons_self a t))

theorem overlapContextStep_frame {numSegments k : Nat} {selections : Nat → List Nat}
    {cv : Mat} (st : T3 × (Nat → Nat)) (c : Nat) {u : Nat}
    (hu : u ∉ (selections c).take k) :
    ((overlapContextStep numSegments k selections cv st c).1.getD u [])
      = st.1.getD u [] := by
  unfold overlapContextStep
  exact foldl_unitStep_getD_ne _ hu st

theorem hardcode_one_t3_overlapping (w3 : T3) (cv : Mat) (r : Rand) :
    DendriticMLP.hardcode_dendritic_weights_one (.t3 w3) cv "overlapping" r
      = .ok (.t3 (overlappingState w3.length (w3.headD []).length
          ((w3.headD []).headD []).length cv r).1) := by
  show (match hardcodeNew w3.length (w3.headD []).length ((w3.headD []).headD []).length
      cv "overlapping" r with
    | .ok nw => Except.ok (DWeights.t3 nw)
    | .error e => Except.error e) = _
  unfold hardcodeNew
  rw [if_pos rfl]

/-- C2: after _hardcode_dendritic_weights with init == overlapping, every
(unit, segment) row is either the constant -0.95 row or a row of
context_vectors; for each unit the hardcoded rows occupy the lowest segment
indices, counted by num_contexts_chosen, which never exceeds num_segments;
and processing one context changes the rows of at most k distinct units (the
k units selected for that context). -/
theorem C2_overlapping_hardcode
    (w3 : T3) (cv : Mat) (r : Rand) (numSegments dimContext : Nat)
    (hW : w3 ≠ [])
    (hS : ∀ u ∈ w3, u.length = numSegments)
    (hS1 : 1 ≤ numSegments)
    (hD : ∀ u ∈ w3, ∀ s ∈ u, s.length = dimContext) :
    ∃ w2 : T3,
      DendriticMLP.hardcode_dendritic_weights_one (.t3 w3) cv "overlapping" r
        = .ok (.t3 w2) ∧
      w2 = (overlappingState w3.length numSegments dimContext cv r).1 ∧
      w2.length = w3.length ∧
      (∀ i, i < w3.length → ∀ j, j < numSegments →
        (w2.getD i []).getD j [] = constRow dimContext
          ∨ (w2.getD i []).getD j [] ∈ cv) ∧
      (∀ i, i < w3.length →
        (overlappingState w3.length numSegments dimContext cv r).2 i ≤ numSegments ∧
        (∀ j, j < (overlappingState w3.length numSegments dimContext cv r).2 i →
          (w2.getD i []).getD j [] ∈ cv) ∧
        (∀ j, (overlappingState w3.length numSegments dimContext cv r).2 i ≤ j →
          j < numSegments → (w2.getD i []).getD j [] = constRow dimContext)) ∧
      (∀ st : T3 × (Nat → Nat), ∀ c : Nat,
        ((r.selections c).take r.k).toFinset.card ≤ r.k ∧
        ∀ u2, u2 ∉ (r.selections c).take r.k →
          ((overlapContextStep numSegments r.k r.selections cv st c).1.getD u2 [])
            = st.1.getD u2 []) := by
  have hhead : w3.headD [] ∈ w3 := by
    cases w3 with
    | nil => exact absurd rfl hW
    | cons u tl => exact List.mem_cons_self u tl
  have hnseg : (w3.headD []).length = numSegments := hS _ hhead
  have hne2 : w3.headD [] ≠ [] := by
    intro h
    rw [h, List.length_nil] at hnseg
    omega
  have hhead2 : (w3.headD []).headD [] ∈ w3.headD [] := by
    cases hh : w3.headD [] with
    | nil => exact absurd hh hne2
    | cons s tl => exact List.mem_cons_self s tl
  have hdc : ((w3.headD []).headD []).length = dimContext := hD _ hhead _ hhead2
  obtain ⟨hlen, hinv⟩ := overlapInv_overlappingState w3.length numSegments dimContext cv r
  refine ⟨(overlappingState w3.length numSegments dimContext cv r).1, ?_, rfl, ?_, ?_, ?_, ?_⟩
  · rw [hardcode_one_t3_overlapping w3 cv r, hnseg, hdc]
  · exact hlen
  · intro i hi j hj
    obtain ⟨hcnt, _, hrows⟩ := hinv i hi
    by_cases hjc : j < (overlappingState w3.length numSegments dimContext cv r).2 i
    · exact Or.inr ((hrows j hj).1 hjc)
    · exact Or.inl ((hrows j hj).2 (by omega))
  · intro i hi
    obtain ⟨hcnt, _, hrows⟩ := hinv i hi
    refine ⟨hcnt, ?_, ?_⟩
    · intro j hjlt
      exact (hrows j (by omega)).1 hjlt
    · intro j hge hj
      exact (hrows j hj).2 hge
  · intro st c
    refine ⟨le_trans (List.toFinset_card_le _) ?_, ?_⟩
    · rw [List.length_take]
      exact min_le_left _ _
    · intro u2 hu2
      exact overlapContextStep_frame st c hu2

/-- Witness for C2 at a concrete input: one unit, one segment, one context
vector [7], k = 1, every context selecting unit 0. -/
theorem C2_overlapping_hardcode_witness :
    ∃ w2 : T3,
      DendriticMLP.hardcode_dendritic_weights_one (.t3 [[[0]]]) [[7]]
        "overlapping" ⟨1, fun _ => [0], fun _ => []⟩
        = .ok (.t3 w2) ∧
      w2 = (overlappingState 1 1 1 [[7]] ⟨1, fun _ => [0], fun _ => []⟩).1 ∧
      w2.length = ([[[0]]] : T3).length ∧
      (∀ i, i < ([[[0]]] : T3).length → ∀ j, j < 1 →
        (w2.getD i []).getD j [] = constRow 1 ∨ (w2.getD i []).getD j [] ∈ ([[7]] : Mat)) ∧
      (∀ i, i < ([[[0]]] : T3).length →
        (overlappingState 1 1 1 [[7]] ⟨1, fun _ => [0], fun _ => []⟩).2 i ≤ 1 ∧
        (∀ j, j < (overlappingState 1 1 1 [[7]] ⟨1, fun _ => [0], fun _ => []⟩).2 i →
          (w2.getD i []).getD j [] ∈ ([[7]] : Mat)) ∧
        (∀ j, (overlappingState 1 1 1 [[7]] ⟨1, fun _ => [0], fun _ => []⟩).2 i ≤ j →
          j < 1 → (w2.getD i []).getD j [] = constRow 1)) ∧
      (∀ st : T3 × (Nat → Nat), ∀ c : Nat,
        (((⟨1, fun _ => [0], fun _ => []⟩ : Rand).selections c).take
            (⟨1, fun _ => [0], fun _ => []⟩ : Rand).k).toFinset.card
          ≤ (⟨1, fun _ => [0], fun _ => []⟩ : Rand).k ∧
        ∀ u2, u2 ∉ (((⟨1, fun _ => [0], fun _ => []⟩ : Rand).selections c).take
            (⟨1, fun _ => [0], fun _ => []⟩ : Rand).k) →
          ((overlapContextStep 1 (⟨1, fun _ => [0], fun _ => []⟩ : Rand).k
              (⟨1, fun _ => [0], fun _ => []⟩ : Rand).selections [[7]] st c).1.getD u2 [])
            = st.1.getD u2 []) :=
  C2_overlapping_hardcode [[[0]]] [[7]] ⟨1, fun _ => [0], fun _ => []⟩ 1 1
    (by decide) (by decide) (by decide) (by decide)

theorem hardcode_one_invalid (w : DWeights) (cv : Mat) (init : String) (r : Rand)
    (h1 : init ≠ "overlapping") (h2 : init ≠ "non_overlapping") :
    DendriticMLP.hardcode_dendritic_weights_one w cv init r
      = .error "Invalid dendritic weight hardcode choice" := by
  cases w with
  | t2 m =>
    show (match hardcodeNew m.length 1 (m.headD []).length cv init r with
      | .ok nw => Except.ok (DWeights.t2 (nw.map (fun u : List (List ℚ) => u.headD [])))
      | .error e => Except.error e) = _
    unfold hardcodeNew
    rw [if_neg h1, if_neg h2]
  | t3 w3 =>
    show (match hardcodeNew w3.length (w3.headD []).length ((w3.headD []).headD []).length
        cv init r with
      | .ok nw => Except.ok (DWeights.t3 nw)
      | .error e => Except.error e) = _
    unfold hardcodeNew
    rw [if_neg h1, if_neg h2]

/-- C5: with an init string other than overlapping and non_overlapping,
hardcode_dendritic_weights raises when num_segments > 0 and a hidden layer
exists, leaving every hidden layer unchanged (the exception fires before any
weight assignment); with num_segments == 0 it returns without modifying
anything and without raising, whatever the init string. -/
theorem C5_invalid_init_raises
    (num_segments : Int) (layers : List DWeights) (cv : Mat) (init : String) (r : Rand) :
    (init ≠ "overlapping" → init ≠ "non_overlapping" → 0 < num_segments → layers ≠ [] →
      DendriticMLP.hardcode_dendritic_weights num_segments layers cv init r
        = (layers, some "Invalid dendritic weight hardcode choice")) ∧
    (num_segments = 0 →
      DendriticMLP.hardcode_dendritic_weights num_segments layers cv init r
        = (layers, none)) := by
  constructor
  · intro h1 h2 hpos hne
    obtain ⟨w, ws, rfl⟩ := List.exists_cons_of_ne_nil hne
    unfold DendriticMLP.hardcode_dendritic_weights
    rw [if_pos hpos]
    show hardcodeLayersGo _ (w :: ws) = _
    unfold hardcodeLayersGo
    rw [hardcode_one_invalid w cv init r h1 h2]
  · intro h0
    unfold DendriticMLP.hardcode_dendritic_weights
    rw [if_neg (by omega)]

/-- Witness for C5: a bogus init string with two segments raises and leaves
the layer list unchanged; zero segments returns unchanged with no raise. -/
theorem C5_invalid_init_raises_witness :
    DendriticMLP.hardcode_dendritic_weights 2 [.t3 [[[0]]]] [[1]] "bogus"
        ⟨0, fun _ => [], fun _ => []⟩
      = ([.t3 [[[0]]]], some "Invalid dendritic weight hardcode choice") ∧
    DendriticMLP.hardcode_dendritic_weights 0 [.t3 [[[0]]]] [[1]] "bogus"
        ⟨0, fun _ => [], fun _ => []⟩
      = ([.t3 [[[0]]]], none) :=
  ⟨(C5_invalid_init_raises 2 [.t3 [[[0]]]] [[1]] "bogus" ⟨0, fun _ => [], fun _ => []⟩).1
      (by decide) (by decide) (by decide) (by decide),
   (C5_invalid_init_raises 0 [.t3 [[[0]]]] [[1]] "bogus" ⟨0, fun _ => [], fun _ => []⟩).2 rfl⟩

theorem hardcode_one_t2_ok (m : Mat) (cv : Mat) (init : String) (r : Rand) (nw : T3)
    (h : hardcodeNew m.length 1 (m.headD []).length cv init r = .ok nw) :
    DendriticMLP.hardcode_dendritic_weights_one (.t2 m) cv init r
      = .ok (.t2 (nw.map (fun u => u.headD []))) := by
  show (match hardcodeNew m.length 1 (m.headD []).length cv init r with
    | .ok nw2 => Except.ok (DWeights.t2 (nw2.map (fun u : List (List ℚ) => u.headD [])))
    | .error e => Except.error e) = _
  rw [h]

theorem perm_head_lt (cv : Mat) (p : List Nat) (hcvne : cv ≠ [])
    (hp : p.Perm (List.range cv.length)) :
    p.headD 0 < cv.length ∧
    (p.map (fun j2 => cv.getD j2 [])).headD [] = cv.getD (p.headD 0) [] := by
  have hpne : p ≠ [] := by
    intro h
    have := hp.length_eq
    rw [h, List.length_nil, List.length_range] at this
    have := List.length_pos.mpr hcvne
    omega
  obtain ⟨h0, t0, rfl⟩ := List.exists_cons_of_ne_nil hpne
  have hh0 : h0 < cv.length := by
    have hm : h0 ∈ h0 :: t0 := List.mem_cons_self h0 t0
    exact List.mem_range.mp (hp.mem_iff.mp hm)
  exact ⟨hh0, rfl⟩

/-- C10: on a 2-D weight tensor _hardcode_dendritic_weights computes through a
temporary segment dimension and writes the squeezed result back, so the
result is again 2-D with shape (num_units, dim_context), its rows being the
single-segment hardcoded rows. -/
theorem C10_two_dim_squeeze
    (m : Mat) (cv : Mat) (r : Rand) (dimContext : Nat) (init : String)
    (hm : m ≠ [])
    (hd : ∀ row ∈ m, row.length = dimContext)
    (hcv : ∀ v ∈ cv, v.length = dimContext)
    (hcvne : cv ≠ [])
    (hperm : ∀ i, (r.perms i).Perm (List.range cv.length))
    (hinit : init = "overlapping" ∨ init = "non_overlapping") :
    ∃ nw : T3,
      hardcodeNew m.length 1 dimContext cv init r = .ok nw ∧
      DendriticMLP.hardcode_dendritic_weights_one (.t2 m) cv init r
        = .ok (.t2 (nw.map (fun u => u.headD []))) ∧
      (nw.map (fun u => u.headD [])).length = m.length ∧
      ∀ row ∈ nw.map (fun u => u.headD []), row.length = dimContext := by
  have hmhead : m.headD [] ∈ m := by
    cases m with
    | nil => exact absurd rfl hm
    | cons a tl => exact List.mem_cons_self a tl
  have hmd : (m.headD []).length = dimContext := hd _ hmhead
  cases hinit with
  | inl hov =>
    subst hov
    refine ⟨(overlappingState m.length 1 dimContext cv r).1, ?_, ?_, ?_, ?_⟩
    · unfold hardcodeNew
      rw [if_pos rfl]
    · apply hardcode_one_t2_ok
      rw [hmd]
      unfold hardcodeNew
      rw [if_pos rfl]
    · rw [List.length_map]
      exact (overlapInv_overlappingState m.length 1 dimContext cv r).1
    · intro row hrow
      obtain ⟨u, hu, hue⟩ := List.mem_map.mp hrow
      obtain ⟨i, hilen, hie⟩ := List.mem_iff_getElem.mp hu
      obtain ⟨hlen, hinv⟩ := overlapInv_overlappingState m.length 1 dimContext cv r
      have hi : i < m.length := by rw [← hlen]; exact hilen
      obtain ⟨_, hrowlen, hrows⟩ := hinv i hi
      have hgd : (overlappingState m.length 1 dimContext cv r).1.getD i [] = u := by
        rw [List.getD_eq_getElem _ _ hilen, hie]
      have hu0 : u.headD [] = u.getD 0 [] := headD_eq_getD_zero u []
      rw [← hue, hu0, ← hgd]
      rcases hrows 0 (by omega) with ⟨hin, hconst⟩
      by_cases hc : 0 < (overlappingState m.length 1 dimContext cv r).2 i
      · exact hcv _ (hin hc)
      · rw [hconst (by omega)]
        unfold constRow
        exact List.length_replicate _ _
  | inr hno =>
    subst hno
    refine ⟨nonOverlappingWeights m.length 1 cv r.perms, ?_, ?_, ?_, ?_⟩
    · unfold hardcodeNew
      rw [if_neg (by decide), if_pos rfl]
    · apply hardcode_one_t2_ok
      rw [hmd]
      unfold hardcodeNew
      rw [if_neg (by decide), if_pos rfl]
    · rw [List.length_map]
      exact length_nonOverlappingWeights _ _ _ _
    · intro row hrow
      obtain ⟨u, hu, hue⟩ := List.mem_map.mp hrow
      obtain ⟨i, hilen, hie⟩ := List.mem_iff_getElem.mp hu
      have hi : i < m.length := by
        have := length_nonOverlappingWeights m.length 1 cv r.perms
        omega
      have hgd : (nonOverlappingWeights m.length 1 cv r.perms).getD i [] = u := by
        rw [List.getD_eq_getElem _ _ hilen, hie]
      obtain ⟨hh0, hhead0⟩ := perm_head_lt cv (r.perms i) hcvne (hperm i)
      rw [← hue, headD_eq_getD_zero u [], ← hgd,
        nonOverlappingWeights_getD _ _ _ _ _ hi,
        getD_range_map _ _ _ _ (by omega : 0 < 1), if_pos rfl, hhead0]
      unfold indicatorPos
      rw [List.length_map]
      exact hcv _ (getD_mem cv _ [] hh0)

/-- Witness for C10 at a concrete input: a 1 x 2 weight matrix hardcoded with
the overlapping init. -/
theorem C10_two_dim_squeeze_witness :
    ∃ nw : T3,
      hardcodeNew 1 1 2 [[3, 4]] "overlapping" ⟨1, fun _ => [0], fun _ => [0]⟩ = .ok nw ∧
      DendriticMLP.hardcode_dendritic_weights_one (.t2 [[0, 0]]) [[3, 4]] "overlapping"
          ⟨1, fun _ => [0], fun _ => [0]⟩
        = .ok (.t2 (nw.map (fun u => u.headD []))) ∧
      (nw.map (fun u => u.headD [])).length = ([[0, 0]] : Mat).length ∧
      ∀ row ∈ nw.map (fun u => u.headD []), row.length = 2 :=
  C10_two_dim_squeeze [[0, 0]] [[3, 4]] ⟨1, fun _ => [0], fun _ => [0]⟩ 2 "overlapping"
    (by decide) (by decide) (by decide) (by decide)
    (fun _ => (List.Perm.refl [0] : ([0] : List Nat).Perm (List.range 1)))
    (Or.inl rfl)


theorem foldl_eq_threadLayers {V C : Type} (context : Option C) :
    ∀ (l : List ((V → Option C → V) × (V → V))) (x : V),
      l.foldl (fun acc la => la.2 (la.1 acc context)) x = threadLayers context l x
  | [], _ => rfl
  | la :: rest, x => by
    rw [List.foldl_cons]
    exact foldl_eq_threadLayers context rest (la.2 (la.1 x context))

/-- C6: with num_segments != 0, forward on context None fails its assertion
before any layer runs; with a context present, forward threads the input
through every (layer, activation) pair in order, passing that same context to
every layer, and then applies the output head(s). -/
theorem C6_forward_assert_and_thread {V C O : Type} (net : ForwardNet V C O) (x : V) :
    (net.num_segments ≠ 0 →
      DendriticMLP.forward net x none = .error "AssertionError") ∧
    (∀ c : C,
      DendriticMLP.forward net x (some c)
        = applyOutputHeads net (threadLayers (some c) (net.layers.zip net.activations) x)) := by
  constructor
  · intro hns
    unfold DendriticMLP.forward
    rw [if_pos ⟨rfl, hns⟩]
  · intro c
    unfold DendriticMLP.forward
    rw [if_neg (by intro h; exact absurd h.1 (by simp)),
      foldl_eq_threadLayers (some c) (net.layers.zip net.activations) x]

/-- Witness for C6: a one-layer network with three segments. -/
theorem C6_forward_assert_and_thread_witness :
    (DendriticMLP.forward
        (⟨3, [fun x _ => x + 1], [fun x => x * 2], [fun x => x], true⟩ : ForwardNet ℚ ℚ ℚ)
        5 none = .error "AssertionError") ∧
    (DendriticMLP.forward
        (⟨3, [fun x _ => x + 1], [fun x => x * 2], [fun x => x], true⟩ : ForwardNet ℚ ℚ ℚ)
        5 (some 0)
      = applyOutputHeads (⟨3, [fun x _ => x + 1], [fun x => x * 2], [fun x => x], true⟩ : ForwardNet ℚ ℚ ℚ)
          (threadLayers (some 0)
            ((⟨3, [fun x _ => x + 1], [fun x => x * 2], [fun x => x], true⟩ : ForwardNet ℚ ℚ ℚ).layers.zip
              (⟨3, [fun x _ => x + 1], [fun x => x * 2], [fun x => x], true⟩ : ForwardNet ℚ ℚ ℚ).activations)
            5)) :=
  ⟨(C6_forward_assert_and_thread (⟨3, [fun x _ => x + 1], [fun x => x * 2], [fun x => x], true⟩ : ForwardNet ℚ ℚ ℚ) 5).1
      (by decide),
   (C6_forward_assert_and_thread (⟨3, [fun x _ => x + 1], [fun x => x * 2], [fun x => x], true⟩ : ForwardNet ℚ ℚ ℚ) 5).2 0⟩

/-- C7: with freeze_dendrites true, every hidden-layer parameter whose name
contains "segments" ends with requires_grad False, every other parameter
keeps its flag, and names are untouched. -/
theorem C7_freeze_dendrites_segments (layerParams : List Params) :
    (applyFreezeDendrites true layerParams).length = layerParams.length ∧
    ∀ li, li < layerParams.length →
      ∀ pi2, pi2 < (layerParams.getD li []).length →
        (((applyFreezeDendrites true layerParams).getD li []).getD pi2 ([], false)).1
          = ((layerParams.getD li []).getD pi2 ([], false)).1 ∧
        ("segments".toList <:+: ((layerParams.getD li []).getD pi2 ([], false)).1 →
          (((applyFreezeDendrites true layerParams).getD li []).getD pi2 ([], false)).2
            = false) ∧
        (¬ "segments".toList <:+: ((layerParams.getD li []).getD pi2 ([], false)).1 →
          (((applyFreezeDendrites true layerParams).getD li []).getD pi2 ([], false)).2
            = ((layerParams.getD li []).getD pi2 ([], false)).2) := by
  constructor
  · unfold applyFreezeDendrites
    rw [if_pos rfl, List.length_map]
  · intro li hli pi2 hpi
    unfold applyFreezeDendrites
    rw [if_pos rfl]
    rw [getD_map_lt freezeSegments layerParams li [] [] hli]
    unfold freezeSegments
    rw [getD_map_lt _ _ _ _ ([], false) hpi]
    by_cases hseg : "segments".toList <:+: ((layerParams.getD li []).getD pi2 ([], false)).1
    · rw [if_pos hseg]
      exact ⟨rfl, fun _ => rfl, fun hn => absurd hseg hn⟩
    · rw [if_neg hseg]
      exact ⟨rfl, fun h => absurd h hseg, fun _ => rfl⟩

/-- Witness for C7: one layer with a segments parameter and a weight
parameter. -/
theorem C7_freeze_dendrites_segments_witness :
    (applyFreezeDendrites true [[("segments.weights".toList, true), ("module.weight".toList, true)]]).length
      = ([[("segments.weights".toList, true), ("module.weight".toList, true)]] : List Params).length ∧
    ∀ li, li < ([[("segments.weights".toList, true), ("module.weight".toList, true)]] : List Params).length →
      ∀ pi2, pi2 < (([[("segments.weights".toList, true), ("module.weight".toList, true)]] : List Params).getD li []).length →
        (((applyFreezeDendrites true [[("segments.weights".toList, true), ("module.weight".toList, true)]]).getD li []).getD pi2 ([], false)).1
          = ((([[("segments.weights".toList, true), ("module.weight".toList, true)]] : List Params).getD li []).getD pi2 ([], false)).1 ∧
        ("segments".toList <:+: ((([[("segments.weights".toList, true), ("module.weight".toList, true)]] : List Params).getD li []).getD pi2 ([], false)).1 →
          (((applyFreezeDendrites true [[("segments.weights".toList, true), ("module.weight".toList, true)]]).getD li []).getD pi2 ([], false)).2
            = false) ∧
        (¬ "segments".toList <:+: ((([[("segments.weights".toList, true), ("module.weight".toList, true)]] : List Params).getD li []).getD pi2 ([], false)).1 →
          (((applyFreezeDendrites true [[("segments.weights".toList, true), ("module.weight".toList, true)]]).getD li []).getD pi2 ([], false)).2
            = ((([[("segments.weights".toList, true), ("module.weight".toList, true)]] : List Params).getD li []).getD pi2 ([], false)).2) :=
  C7_freeze_dendrites_segments [[("segments.weights".toList, true), ("module.weight".toList, true)]]

/-- C8: whenever the constructor assertion on dendrite_init passes, the
hardcode_dendrites attribute is false, so the dendrite_sparsity handed to the
hidden layers is exactly dendrite_weight_sparsity. -/
theorem C8_hardcode_dendrites_unreachable (dendrite_init : String) (b : Bool) (dws : ℚ)
    (h : ctorHardcodeDendrites dendrite_init = .ok b) :
    b = false ∧ ctorDendriteSparsity b dws = dws := by
  unfold ctorHardcodeDendrites at h
  by_cases hv : dendrite_init = "kaiming" ∨ dendrite_init = "modified"
  · rw [if_pos hv] at h
    have hb : (dendrite_init == "hardcoded") = b := by
      have := Except.ok.inj h
      exact this
    have hbf : b = false := by
      rcases hv with hk | hm
      · subst hk
        rw [← hb]
        rfl
      · subst hm
        rw [← hb]
        rfl
    subst hbf
    exact ⟨rfl, rfl⟩
  · rw [if_neg hv] at h
    exact absurd h (by simp)

/-- Witness for C8: dendrite_init = "modified". -/
theorem C8_hardcode_dendrites_unreachable_witness :
    false = false ∧ ctorDendriteSparsity false ((95 : ℚ) / 100) = (95 : ℚ) / 100 :=
  C8_hardcode_dendrites_unreachable "modified" false ((95 : ℚ) / 100) rfl

/-- C9: kw_percent_on == 0.0 forces the kw flag off and every hidden
activation to ReLU; whenever the kw flag is on, layer i gets KWinners with
n = hidden_sizes[i] and percent_on = kw_percent_on. -/
theorem C9_activations (kw : Bool) (kw_percent_on : Option ℚ) (hidden_sizes : List Nat) :
    (kw_percent_on = some 0 →
      effectiveKw kw kw_percent_on = false ∧
      ∀ i, i < hidden_sizes.length →
        (hiddenActivations kw kw_percent_on hidden_sizes).getD i .relu = .relu) ∧
    (effectiveKw kw kw_percent_on = true →
      ∀ i, i < hidden_sizes.length →
        (hiddenActivations kw kw_percent_on hidden_sizes).getD i .relu
          = .kwinners (hidden_sizes.getD i 0) kw_percent_on) := by
  constructor
  · intro h0
    have heff : effectiveKw kw kw_percent_on = false := by
      unfold effectiveKw
      rw [if_pos h0]
    refine ⟨heff, ?_⟩
    intro i hi
    unfold hiddenActivations
    rw [getD_map_lt _ _ _ _ 0 hi, heff]
    rfl
  · intro heff i hi
    unfold hiddenActivations
    rw [getD_map_lt _ _ _ _ 0 hi, heff]
    rfl

/-- Witness for C9: kw requested but kw_percent_on zero (forces ReLU) and a
second instantiation where the flag stays on (KWinners). -/
theorem C9_activations_witness :
    (effectiveKw true (some 0) = false ∧
      ∀ i, i < ([4] : List Nat).length →
        (hiddenActivations true (some 0) [4]).getD i .relu = .relu) ∧
    (∀ i, i < ([4] : List Nat).length →
      (hiddenActivations true (some (1/2)) [4]).getD i .relu
        = .kwinners (([4] : List Nat).getD i 0) (some (1/2))) :=
  ⟨(C9_activations true (some 0) [4]).1 rfl,
   (C9_activations true (some (1/2)) [4]).2 (by norm_num [effectiveKw])⟩


theorem rezero_uniform_length (mask : Nat → Nat → Bool) (s : Nat → Nat → ℚ) (w : Mat) :
    (rezero_weights mask (uniform_fill s w)).length = w.length := by
  unfold rezero_weights uniform_fill
  rw [List.length_map, List.length_range, List.length_map, List.length_range]

theorem rezero_uniform_getD (mask : Nat → Nat → Bool) (s : Nat → Nat → ℚ) (w : Mat)
    (i j : Nat) (hi : i < w.length) (hj : j < (w.getD i []).length) :
    ((rezero_weights mask (uniform_fill s w)).getD i []).getD j 0
      = if mask i j then 0 else s i j := by
  have hlen : (uniform_fill s w).length = w.length := by
    unfold uniform_fill
    rw [List.length_map, List.length_range]
  have hrow : (uniform_fill s w).getD i []
      = (List.range (w.getD i []).length).map (fun j2 => s i j2) := by
    unfold uniform_fill
    rw [getD_range_map _ _ _ _ hi]
  unfold rezero_weights
  rw [getD_range_map _ _ _ _ (by rw [hlen]; exact hi), hrow, List.length_map,
    List.length_range, getD_range_map _ _ _ _ hj, getD_range_map _ _ _ _ hj]

/-- C3: _init_sparse_weights samples every entry of the module weight inside
(-h, h) with h = 1/sqrt((1 - input_sparsity) * (1 - m.sparsity) * fan_in),
fan_in the second dimension of the weight, then rezero_weights zeroes every
masked position; _init_sparse_dendrites does the same on segment_weights with
fan_in = m.dim_context and the segments sparsity, and leaves the layer
unchanged when m.segments is None. -/
theorem C3_modified_sparse_init
    (m : SparseLayer) (md : DendLayer) (input_sparsity input_sparsity2 : ℚ)
    (sw sd : Nat → Nat → ℚ)
    (hms : m.sparsity < 1)
    (his : input_sparsity < 1)
    (hsw : ∀ i j, |((sw i j : ℚ) : ℝ)|
      < 1 / Real.sqrt ((boundDenom input_sparsity m.sparsity (fanIn m.weight) : ℚ)))
    (hsd : ∀ seg, md.segments = some seg → ∀ i j, |((sd i j : ℚ) : ℝ)|
      < 1 / Real.sqrt ((boundDenom input_sparsity2 seg.sparsity md.dim_context : ℚ))) :
    ((DendriticMLP.init_sparse_weights m sw).sparsity = m.sparsity ∧
     (DendriticMLP.init_sparse_weights m sw).weight.length = m.weight.length ∧
     (∀ i, i < m.weight.length → ∀ j, j < (m.weight.getD i []).length →
       (m.zeroMask i j = true →
         ((DendriticMLP.init_sparse_weights m sw).weight.getD i []).getD j 0 = 0) ∧
       (m.zeroMask i j = false →
         ((DendriticMLP.init_sparse_weights m sw).weight.getD i []).getD j 0 = sw i j ∧
         |((((DendriticMLP.init_sparse_weights m sw).weight.getD i []).getD j 0 : ℚ) : ℝ)|
           < 1 / Real.sqrt ((boundDenom input_sparsity m.sparsity (fanIn m.weight) : ℚ))))) ∧
    (md.segments = none → DendriticMLP.init_sparse_dendrites md sd = md) ∧
    (∀ seg, md.segments = some seg →
      ∀ i, i < md.segment_weights.length → ∀ j, j < (md.segment_weights.getD i []).length →
        (md.segZeroMask i j = true →
          ((DendriticMLP.init_sparse_dendrites md sd).segment_weights.getD i []).getD j 0 = 0) ∧
        (md.segZeroMask i j = false →
          ((DendriticMLP.init_sparse_dendrites md sd).segment_weights.getD i []).getD j 0
            = sd i j ∧
          |((((DendriticMLP.init_sparse_dendrites md sd).segment_weights.getD i []).getD j 0 : ℚ) : ℝ)|
            < 1 / Real.sqrt ((boundDenom input_sparsity2 seg.sparsity md.dim_context : ℚ)))) := by
  have hw : (DendriticMLP.init_sparse_weights m sw).weight
      = rezero_weights m.zeroMask (uniform_fill sw m.weight) := rfl
  refine ⟨⟨rfl, ?_, ?_⟩, ?_, ?_⟩
  · rw [hw]
    exact rezero_uniform_length _ _ _
  · intro i hi j hj
    constructor
    · intro hmask
      rw [hw, rezero_uniform_getD _ _ _ _ _ hi hj, hmask]
      rfl
    · intro hmask
      rw [hw, rezero_uniform_getD _ _ _ _ _ hi hj, hmask]
      exact ⟨rfl, hsw i j⟩
  · intro hnone
    unfold DendriticMLP.init_sparse_dendrites
    rw [hnone]
  · intro seg hsome i hi j hj
    have hw2 : (DendriticMLP.init_sparse_dendrites md sd).segment_weights
        = rezero_weights md.segZeroMask (uniform_fill sd md.segment_weights) := by
      unfold DendriticMLP.init_sparse_dendrites
      rw [hsome]
    constructor
    · intro hmask
      rw [hw2, rezero_uniform_getD _ _ _ _ _ hi hj, hmask]
      rfl
    · intro hmask
      rw [hw2, rezero_uniform_getD _ _ _ _ _ hi hj, hmask]
      exact ⟨rfl, hsd seg hsome i j⟩

/-- Witness for C3: a 1 x 1 weight, sparsity 0, zero sampler, dendritic layer
with one segment sub-module of sparsity 0 and dim_context 1, no masking. -/
theorem C3_modified_sparse_init_witness :
    ((DendriticMLP.init_sparse_weights (⟨0, [[0]], fun _ _ => false⟩ : SparseLayer)
        (fun _ _ => 0)).sparsity = (⟨0, [[0]], fun _ _ => false⟩ : SparseLayer).sparsity ∧
     (DendriticMLP.init_sparse_weights (⟨0, [[0]], fun _ _ => false⟩ : SparseLayer)
        (fun _ _ => 0)).weight.length
       = (⟨0, [[0]], fun _ _ => false⟩ : SparseLayer).weight.length ∧
     (∀ i, i < (⟨0, [[0]], fun _ _ => false⟩ : SparseLayer).weight.length →
       ∀ j, j < ((⟨0, [[0]], fun _ _ => false⟩ : SparseLayer).weight.getD i []).length →
       ((⟨0, [[0]], fun _ _ => false⟩ : SparseLayer).zeroMask i j = true →
         ((DendriticMLP.init_sparse_weights (⟨0, [[0]], fun _ _ => false⟩ : SparseLayer)
            (fun _ _ => 0)).weight.getD i []).getD j 0 = 0) ∧
       ((⟨0, [[0]], fun _ _ => false⟩ : SparseLayer).zeroMask i j = false →
         ((DendriticMLP.init_sparse_weights (⟨0, [[0]], fun _ _ => false⟩ : SparseLayer)
            (fun _ _ => 0)).weight.getD i []).getD j 0 = (fun _ _ => (0 : ℚ)) i j ∧
         |((((DendriticMLP.init_sparse_weights (⟨0, [[0]], fun _ _ => false⟩ : SparseLayer)
            (fun _ _ => 0)).weight.getD i []).getD j 0 : ℚ) : ℝ)|
           < 1 / Real.sqrt ((boundDenom 0 (⟨0, [[0]], fun _ _ => false⟩ : SparseLayer).sparsity
              (fanIn (⟨0, [[0]], fun _ _ => false⟩ : SparseLayer).weight) : ℚ))))) ∧
    ((⟨1, some ⟨0⟩, [[0]], fun _ _ => false⟩ : DendLayer).segments = none →
      DendriticMLP.init_sparse_dendrites (⟨1, some ⟨0⟩, [[0]], fun _ _ => false⟩ : DendLayer)
        (fun _ _ => 0) = (⟨1, some ⟨0⟩, [[0]], fun _ _ => false⟩ : DendLayer)) ∧
    (∀ seg, (⟨1, some ⟨0⟩, [[0]], fun _ _ => false⟩ : DendLayer).segments = some seg →
      ∀ i, i < (⟨1, some ⟨0⟩, [[0]], fun _ _ => false⟩ : DendLayer).segment_weights.length →
      ∀ j, j < ((⟨1, some ⟨0⟩, [[0]], fun _ _ => false⟩ : DendLayer).segment_weights.getD i []).length →
        ((⟨1, some ⟨0⟩, [[0]], fun _ _ => false⟩ : DendLayer).segZeroMask i j = true →
          ((DendriticMLP.init_sparse_dendrites
              (⟨1, some ⟨0⟩, [[0]], fun _ _ => false⟩ : DendLayer)
              (fun _ _ => 0)).segment_weights.getD i []).getD j 0 = 0) ∧
        ((⟨1, some ⟨0⟩, [[0]], fun _ _ => false⟩ : DendLayer).segZeroMask i j = false →
          ((DendriticMLP.init_sparse_dendrites
              (⟨1, some ⟨0⟩, [[0]], fun _ _ => false⟩ : DendLayer)
              (fun _ _ => 0)).segment_weights.getD i []).getD j 0 = (fun _ _ => (0 : ℚ)) i j ∧
          |((((DendriticMLP.init_sparse_dendrites
              (⟨1, some ⟨0⟩, [[0]], fun _ _ => false⟩ : DendLayer)
              (fun _ _ => 0)).segment_weights.getD i []).getD j 0 : ℚ) : ℝ)|
            < 1 / Real.sqrt ((boundDenom 0 seg.sparsity
                (⟨1, some ⟨0⟩, [[0]], fun _ _ => false⟩ : DendLayer).dim_context : ℚ)))) :=
  C3_modified_sparse_init (⟨0, [[0]], fun _ _ => false⟩ : SparseLayer)
    (⟨1, some ⟨0⟩, [[0]], fun _ _ => false⟩ : DendLayer) 0 0 (fun _ _ => 0) (fun _ _ => 0)
    (by norm_num)
    (by norm_num)
    (by
      intro i j
      norm_num [boundDenom, show fanIn [[(0 : ℚ)]] = 1 from rfl, Real.sqrt_one])
    (by
      intro seg h i j
      cases h
      norm_num [boundDenom, Real.sqrt_one])

/-- C4: each functional apply-dendrites primitive returns the same values as
the corresponding module forward, on 2-D outputs with 3-D activations and on
4-D outputs with per-channel activations. -/
theorem C4_functional_module_agree (sig : ℚ → ℚ) (y : Mat) (acts : T3) (y2 : T4)
    (acts2 : T3) (b : DendriticBias) (g : DendriticGate) (ag : DendriticAbsoluteMaxGate)
    (g2 : DendriticGate2d) (ag2 : DendriticAbsoluteMaxGate2d) :
    b.forward y acts = dendritic_bias y acts ∧
    g.forward sig y acts = dendritic_gate sig y acts ∧
    ag.forward sig y acts = dendritic_absolute_max_gate sig y acts ∧
    g2.forward sig y2 acts2 = dendritic_gate_2d sig y2 acts2 ∧
    ag2.forward sig y2 acts2 = dendritic_absolute_max_gate_2d sig y2 acts2 :=
  ⟨rfl, rfl, rfl, rfl, rfl⟩

end DendriticNet
